import Mathlib

/-!
Verification of the nl2v2 workflow-orchestration specification.

The orchestration core (workflow state machine, artifact registry, task
scheduler, planner validation) is described in the specification; its
definitions below are modelled from the spec.  The frontend definitions
(`App.handleSendMessage`, the `Api` wrappers, the `toggleSection` handlers)
are shallow embeddings of the JavaScript sources under
`src/frontend/src`.
-/

namespace Nl2v2

/-! ### Workflow State Machine (spec §4.1) -/

/-- Modelled from the spec: the ingestion lifecycle states (§4.1), the
linear ordering `FILE_DROPPED … DONE` plus the terminal `FAILED` state. -/
inductive WorkflowState where
  | FILE_DROPPED
  | CLASSIFIED
  | PROFILED
  | DICT_DRAFT
  | DICT_REVIEWED
  | READY
  | BULK_LOADED
  | DONE
  | FAILED
deriving DecidableEq, Repr, Fintype

open WorkflowState

/-- Modelled from the spec: the fixed linear ordering of ingestion states
(§4.1); `FAILED` is outside the ordering. -/
def stateOrder : List WorkflowState :=
  [FILE_DROPPED, CLASSIFIED, PROFILED, DICT_DRAFT, DICT_REVIEWED,
   READY, BULK_LOADED, DONE]

/-- Modelled from the spec: the unique successor of a state in the fixed
linear ordering; terminal states have no successor. -/
def succOf : WorkflowState → Option WorkflowState
  | FILE_DROPPED => some CLASSIFIED
  | CLASSIFIED => some PROFILED
  | PROFILED => some DICT_DRAFT
  | DICT_DRAFT => some DICT_REVIEWED
  | DICT_REVIEWED => some READY
  | READY => some BULK_LOADED
  | BULK_LOADED => some DONE
  | DONE => none
  | FAILED => none

/-- Modelled from the spec: `DONE` and `FAILED` are terminal (§4.1). -/
def isTerminalState : WorkflowState → Bool
  | DONE => true
  | FAILED => true
  | _ => false

/-- Modelled from the spec: one history record, "(from-state, to-state,
timestamp, reason)" (§3, WorkflowInstance). -/
structure HistoryRecord where
  fromState : WorkflowState
  toState : WorkflowState
  timestamp : Nat
  reason : String
deriving DecidableEq, Repr

/-- Modelled from the spec: the evidence passed to `advance`; it supplies
the timestamp and reason recorded in history. -/
structure Evidence where
  timestamp : Nat
  reason : String
deriving DecidableEq, Repr

/-- Modelled from the spec: a WorkflowInstance (§3): `id`, `state`,
append-only `history`, and the stage-name-to-artifact-hash mapping. -/
structure WorkflowInstance where
  id : Nat
  state : WorkflowState
  history : List HistoryRecord
  artifacts : List (String × Nat)
deriving DecidableEq, Repr

/-- Modelled from the spec: the error taxonomy of §7. -/
inductive OrchError where
  | InvalidTransition
  | InvalidPlan
  | QueryError
  | ExecutionError
  | TransientError
  | NotFound
deriving DecidableEq, Repr

/-- Modelled from the spec: `advance(instance, targetState, evidence)`
(§4.1).  A transition is legal only if `targetState` is the unique
successor of `instance.state` in the fixed linear ordering, or
`targetState == FAILED`; `DONE` and `FAILED` are terminal; every
successful transition appends one history record. -/
def advance (inst : WorkflowInstance) (target : WorkflowState) (ev : Evidence) :
    Except OrchError WorkflowInstance :=
  if isTerminalState inst.state then
    .error .InvalidTransition
  else if succOf inst.state = some target ∨ target = FAILED then
    .ok { inst with
            state := target,
            history := inst.history ++
              [⟨inst.state, target, ev.timestamp, ev.reason⟩] }
  else
    .error .InvalidTransition

/-- Modelled from the spec: a WorkflowInstance is created on file upload,
starting in `FILE_DROPPED` with empty history (§3, §6). -/
def freshInstance (n : Nat) : WorkflowInstance :=
  { id := n, state := FILE_DROPPED, history := [], artifacts := [] }

/-- Modelled from the spec: the reachable WorkflowInstances are those built
from a fresh instance by successful `advance` calls (the only operation
that mutates an instance, §5). -/
inductive ReachableInstance : WorkflowInstance → Prop where
  | init (n : Nat) : ReachableInstance (freshInstance n)
  | step {inst inst' : WorkflowInstance} (t : WorkflowState) (ev : Evidence) :
      ReachableInstance inst → advance inst t ev = .ok inst' →
      ReachableInstance inst'

/-- History restricted to successful (non-`FAILED`) transitions: the
sequence of target states of non-failure records. -/
def successfulToStates (inst : WorkflowInstance) : List WorkflowState :=
  (inst.history.filter (fun r => !(r.toState == FAILED))).map (·.toState)

/-- The chain of states visited along the linear ordering: the initial
state followed by the successful transition targets. -/
def stateChain (inst : WorkflowInstance) : List WorkflowState :=
  FILE_DROPPED :: successfulToStates inst

/-! ### Artifact Registry (spec §4.4) -/

/-- Modelled from the spec: the content digest used by the content-addressed
Artifact Registry; identical content always yields the same hash, and the
digest is collision-free on stored payloads. -/
def hashContent : List Nat → Nat
  | [] => 0
  | b :: t => Nat.pair b (hashContent t) + 1

/-- Modelled from the spec: the Artifact Registry (§4.4), a content-addressed
store of immutable outputs keyed by hash. -/
structure Registry where
  entries : List (Nat × List Nat)
deriving DecidableEq, Repr

/-- Modelled from the spec: `put(content) -> hash`, idempotent: recomputing
on identical content returns the same hash and does not duplicate storage
(atomic check-then-insert, §4.4, §5). -/
def Registry.put (r : Registry) (c : List Nat) : Registry × Nat :=
  let h := hashContent c
  if r.entries.any (fun e => e.1 == h) then (r, h)
  else (⟨(h, c) :: r.entries⟩, h)

/-- Modelled from the spec: `get(hash) -> content | fails(NotFound)`
(§4.4). -/
def Registry.get (r : Registry) (h : Nat) : Except OrchError (List Nat) :=
  match r.entries.find? (fun e => e.1 == h) with
  | some e => .ok e.2
  | none => .error .NotFound

/-- A registry is well-formed when every entry is keyed by the digest of
its content; `put` only ever creates such entries. -/
def Registry.WF (r : Registry) : Prop :=
  ∀ e ∈ r.entries, e.1 = hashContent e.2

/-! ### Task Scheduler (spec §4.2) -/

/-- Modelled from the spec: the final outcome of dispatching one step
(after the Scheduler's retry policy, §4.2: only the final outcome is
recorded). -/
inductive Outcome where
  | success
  | failure
deriving DecidableEq, Repr

/-- Modelled from the spec: per-step status (§3, Plan). -/
inductive StepStatus where
  | pending
  | running
  | succeeded
  | failed
  | skipped
deriving DecidableEq, Repr

/-- Modelled from the spec: one Step node of a Plan (§3): `id`, `dependsOn`,
and whether the step is explicitly marked tolerant of dependency failure
(§4.2). -/
structure Step where
  id : Nat
  dependsOn : List Nat
  tolerant : Bool
deriving DecidableEq, Repr

/-- Modelled from the spec: a Plan, a graph of Steps listed in insertion
order (§3). -/
structure Plan where
  steps : List Step
deriving DecidableEq, Repr

/-- Modelled from the spec: the observable scheduling events: a step is
dispatched (with its final outcome) or marked skipped (§4.2, §4.3). -/
inductive Event where
  | dispatched (id : Nat) (out : Outcome)
  | skipped (id : Nat)
deriving DecidableEq, Repr

/-- The step id an event concerns. -/
def Event.targetId : Event → Nat
  | .dispatched i _ => i
  | .skipped i => i

/-- The step status recorded by an event. -/
def eventStatus : Event → StepStatus
  | .dispatched _ .success => .succeeded
  | .dispatched _ .failure => .failed
  | .skipped _ => .skipped

/-- The status of step `i` after the trace `tr`: determined by the first
event concerning `i`, `pending` if there is none. -/
def statusOf (tr : List Event) (i : Nat) : StepStatus :=
  match tr.find? (fun e => e.targetId == i) with
  | some e => eventStatus e
  | none => .pending

/-- Modelled from the spec: terminal step statuses (`succeeded`, `failed`,
`skipped`, §8). -/
def isTerminalStatus : StepStatus → Bool
  | .succeeded => true
  | .failed => true
  | .skipped => true
  | _ => false

/-- All dependencies of `s` have reached a terminal status after `tr`. -/
def depsTerminalB (tr : List Event) (s : Step) : Bool :=
  s.dependsOn.all (fun d => isTerminalStatus (statusOf tr d))

/-- All dependencies of `s` have succeeded after `tr`. -/
def depsSucceededB (tr : List Event) (s : Step) : Bool :=
  s.dependsOn.all (fun d => statusOf tr d == .succeeded)

/-- Modelled from the spec: a pending step with a failed (or skipped)
dependency is marked skipped unless explicitly marked tolerant (§4.2). -/
def skippableB (tr : List Event) (s : Step) : Bool :=
  statusOf tr s.id == .pending &&
  !s.tolerant &&
  s.dependsOn.any (fun d =>
    statusOf tr d == .failed || statusOf tr d == .skipped)

/-- Modelled from the spec: the ready frontier (§4.2): a pending step all
of whose dependencies are terminal, with either all dependencies succeeded
or the step marked tolerant. -/
def readyB (tr : List Event) (s : Step) : Bool :=
  statusOf tr s.id == .pending &&
  depsTerminalB tr s &&
  (depsSucceededB tr s || s.tolerant)

/-- The skip events of one scheduling round, in step insertion order. -/
def skipEvents (plan : Plan) (tr : List Event) : List Event :=
  (plan.steps.filter (skippableB tr)).map (fun s => Event.skipped s.id)

/-- The dispatch events of one scheduling round: the ready frontier is
dispatched in stable FIFO step insertion order (§4.2). -/
def dispatchEvents (plan : Plan) (o : Nat → Outcome) (tr : List Event) :
    List Event :=
  (plan.steps.filter (readyB tr)).map
    (fun s => Event.dispatched s.id (o s.id))

/-- Modelled from the spec: one round of the Scheduler loop (§4.2): first
propagate failure by skipping, then dispatch the recomputed ready
frontier. -/
def roundEvents (plan : Plan) (o : Nat → Outcome) (tr : List Event) :
    List Event :=
  skipEvents plan tr ++ dispatchEvents plan o (tr ++ skipEvents plan tr)

/-- The Scheduler loop with explicit fuel: repeat rounds until a round
produces no event. -/
def runAux (plan : Plan) (o : Nat → Outcome) : Nat → List Event → List Event
  | 0, tr => tr
  | n + 1, tr =>
    let evs := roundEvents plan o tr
    if evs.isEmpty then tr else runAux plan o n (tr ++ evs)

/-- Modelled from the spec: running the Scheduler on a Plan with the given
per-step outcomes, producing the full event trace (§4.2). -/
def run (plan : Plan) (o : Nat → Outcome) : List Event :=
  runAux plan o (plan.steps.length + 1) []

/-- The final status of step `i` after the Scheduler finishes. -/
def finalStatus (plan : Plan) (o : Nat → Outcome) (i : Nat) : StepStatus :=
  statusOf (run plan o) i

/-- Modelled from the spec: the aggregate Plan status (§3, Goal). -/
inductive PlanStatus where
  | succeeded
  | failed
deriving DecidableEq, Repr

/-- Modelled from the spec: the Plan is `succeeded` iff all steps are
`succeeded` or tolerant-`skipped`; otherwise `failed` (§4.2). -/
def planAggregate (plan : Plan) (st : Nat → StepStatus) : PlanStatus :=
  if plan.steps.all (fun s =>
      st s.id == .succeeded || (st s.id == .skipped && s.tolerant)) then
    .succeeded
  else .failed

/-- The step ids dispatched in a trace, in order. -/
def dispIds (tr : List Event) : List Nat :=
  tr.filterMap (fun e =>
    match e with
    | .dispatched i _ => some i
    | .skipped _ => none)

/-! ### Planner output validation (spec §6) -/

/-- The step ids declared by a plan, in insertion order. -/
def planIds (plan : Plan) : List Nat := plan.steps.map (·.id)

/-- The distinct step ids of a plan. -/
def uids (plan : Plan) : List Nat := (planIds plan).dedup

/-- The dependencies declared for id `i` by the plan's steps. -/
def depsOf (plan : Plan) (i : Nat) : List Nat :=
  (plan.steps.filter (fun s => s.id == i)).flatMap (·.dependsOn)

/-- One elimination round of the acyclicity check: the ids not yet
eliminated all of whose dependencies are already eliminated. -/
def elimRound (plan : Plan) (done : List Nat) : List Nat :=
  (uids plan).filter (fun i =>
    !(done.contains i) && (depsOf plan i).all (fun d => done.contains d))

/-- The iterated elimination order with explicit fuel. -/
def kahnAux (plan : Plan) : Nat → List Nat → List Nat
  | 0, done => done
  | n + 1, done =>
    let nw := elimRound plan done
    if nw.isEmpty then done else kahnAux plan n (done ++ nw)

/-- The elimination order computed for a plan. -/
def kahnOrder (plan : Plan) : List Nat :=
  kahnAux plan ((uids plan).length + 1) []

/-- Modelled from the spec: the orchestrator's acyclicity check on a
Planner graph (§6): every step id can be eliminated in dependency order. -/
def acyclicB (plan : Plan) : Bool :=
  (uids plan).all (fun i => (kahnOrder plan).contains i)

/-- Modelled from the spec: the orchestrator's check that every
`dependsOn` entry references an existing step id (§6). -/
def refsOkB (plan : Plan) : Bool :=
  plan.steps.all (fun s =>
    s.dependsOn.all (fun d => (planIds plan).contains d))

/-- Modelled from the spec: the orchestrator accepts a Planner graph only
if all dependency references exist and the graph is acyclic (§6). -/
def validatePlanB (plan : Plan) : Bool :=
  refsOkB plan && acyclicB plan

/-- The transitive dependency relation of a plan: `ReachesPlus plan i j`
holds when there is a dependency path of at least one edge from `i` to
`j`. -/
inductive ReachesPlus (plan : Plan) : Nat → Nat → Prop where
  | single {i d : Nat} : d ∈ depsOf plan i → ReachesPlus plan i d
  | tail {i d j : Nat} : d ∈ depsOf plan i → ReachesPlus plan d j →
      ReachesPlus plan i j

/-- A plan graph contains a cycle: some id depends transitively on
itself. -/
def HasCycle (plan : Plan) : Prop := ∃ i, ReachesPlus plan i i

/-- A plan graph contains a `dependsOn` reference to a nonexistent step
id. -/
def HasBadRef (plan : Plan) : Prop :=
  ∃ s ∈ plan.steps, ∃ d ∈ s.dependsOn, d ∉ planIds plan

/-- Modelled from the spec: Goal status (§3). -/
inductive GoalStatus where
  | pending
  | in_progress
  | complete
  | failed
deriving DecidableEq, Repr

/-- Modelled from the spec: the outcome of executing one Goal's plan:
final status, the triggering error (if any), and the scheduling trace. -/
structure GoalResult where
  status : GoalStatus
  error : Option OrchError
  trace : List Event
deriving DecidableEq, Repr

/-- Modelled from the spec: executing a Goal's plan (§6, §7): a malformed
graph from the Planner is rejected with `InvalidPlan`, the Goal fails
immediately and no step runs; otherwise the Scheduler runs the plan and
the aggregate status determines the Goal status. -/
def executeGoal (plan : Plan) (o : Nat → Outcome) : GoalResult :=
  if validatePlanB plan then
    let tr := run plan o
    { status :=
        if planAggregate plan (statusOf tr) == PlanStatus.succeeded then
          .complete
        else .failed,
      error := none,
      trace := tr }
  else
    { status := .failed, error := some .InvalidPlan, trace := [] }

/-! ### Frontend: `src/frontend/src/api.js` -/

namespace Api

/-- The result of an axios request as observed by the wrappers in
`api.js`: either the response data, or an error whose
`error.response?.data?.error` chain yields `serverError` (none when any
link of the chain is absent). -/
inductive AxiosResult (α : Type) where
  | ok (data : α)
  | err (serverError : Option String)
deriving DecidableEq

/-- JavaScript `a || fallback` on the optional server error string: the
fallback is used when the field is absent or empty (falsy). -/
def errMessageOr (serverError : Option String) (fallback : String) : String :=
  match serverError with
  | some s => if s = "" then fallback else s
  | none => fallback

/-- `processMessage` (`api.js` lines 7-19): returns `response.data`, or
throws an Error with the server-supplied message or the fallback. -/
def processMessage {α : Type} (r : AxiosResult α) : Except String α :=
  match r with
  | .ok d => .ok d
  | .err se => .error (errMessageOr se "Failed to process message")

/-- `uploadFile` (`api.js` lines 22-37). -/
def uploadFile {α : Type} (r : AxiosResult α) : Except String α :=
  match r with
  | .ok d => .ok d
  | .err se => .error (errMessageOr se "Failed to upload file")

/-- `analyzeData` (`api.js` lines 40-50). -/
def analyzeData {α : Type} (r : AxiosResult α) : Except String α :=
  match r with
  | .ok d => .ok d
  | .err se => .error (errMessageOr se "Failed to analyze data")

end Api

/-! ### Frontend: `src/frontend/src/App.js` -/

namespace App

/-- JavaScript string `trim()`: remove whitespace from both ends. -/
def jsTrim (s : String) : String :=
  ⟨((s.data.dropWhile (·.isWhitespace)).reverse.dropWhile
      (·.isWhitespace)).reverse⟩

/-- Message roles used by `App.js`. -/
inductive Role where
  | user
  | system
deriving DecidableEq, Repr

/-- The `details` payload attached to a system response message
(`App.js` lines 61-68). -/
structure MessageDetails where
  query : Option String
  complexity : Option String
  qtype : Option String
  reasoningSteps : Option (List String)
  executionPlan : Option (List String)
  results : Option String
deriving DecidableEq

/-- One chat message (`role`, `content`, optional `details`). -/
structure ChatMessage where
  role : Role
  content : String
  details : Option MessageDetails
deriving DecidableEq

/-- The component state of `App` (`App.js` lines 8-14). -/
structure AppState where
  messages : List ChatMessage
  loading : Bool
  fileData : Option String
  dataDictPath : Option String
  dbPath : String
  dataDict : Option String
  showSidebar : Bool
deriving DecidableEq

/-- The response of the `processMessage` API call as consumed by
`handleSendMessage` (`App.js` lines 52-77). -/
structure ProcessResponse where
  success : Bool
  error : String
  resultSummary : Option String
  resultDetails : MessageDetails
deriving DecidableEq

/-- The outcome of the awaited `processMessage` call: a response, or a
thrown error with a message. -/
inductive ApiOutcome where
  | ok (resp : ProcessResponse)
  | thrown (message : String)
deriving DecidableEq

/-- The observable effects issued by `handleSendMessage`: React state
setters and the API call. -/
inductive Effect where
  | setMessages (ms : List ChatMessage)
  | setLoading (b : Bool)
  | apiProcessMessage (query : String)
deriving DecidableEq

/-- Applying one React state-setter effect to the component state. -/
def applyEffect (st : AppState) : Effect → AppState
  | .setMessages ms => { st with messages := ms }
  | .setLoading b => { st with loading := b }
  | .apiProcessMessage _ => st

/-- Applying a sequence of effects in order. -/
def applyEffects (st : AppState) (es : List Effect) : AppState :=
  es.foldl applyEffect st

/-- `handleSendMessage` (`App.js` lines 26-86) as the sequence of effects
it issues: a blank (whitespace-only) message returns immediately; otherwise
the user message is appended, loading is set, and either the
upload-a-file prompt is shown (when no data dictionary or db path is
loaded) or the query is processed; the `finally` block always resets
loading. -/
def handleSendMessage (st : AppState) (message : String) (api : ApiOutcome) :
    List Effect :=
  if jsTrim message = "" then []
  else
    let newMessages := st.messages ++ [⟨.user, message, none⟩]
    [Effect.setMessages newMessages, Effect.setLoading true] ++
    (if st.dataDictPath = none ∨ st.dbPath = "" then
      [Effect.setMessages (newMessages ++
        [⟨.system,
          "Please upload a data file first to enable query processing.",
          none⟩]),
       Effect.setLoading false]
    else
      Effect.apiProcessMessage message ::
      (match api with
       | .ok r =>
         if r.success then
           [Effect.setMessages (newMessages ++
             [⟨.system, r.resultSummary.getD "Query processed successfully.",
               some r.resultDetails⟩])]
         else
           [Effect.setMessages (newMessages ++
             [⟨.system, "Error: " ++ r.error, none⟩])]
       | .thrown m =>
         [Effect.setMessages (newMessages ++
           [⟨.system, "Error: " ++ m, none⟩])])) ++
    [Effect.setLoading false]

end App

/-! ### Frontend: `Sidebar.js` and `MessageItem.js` -/

namespace Sidebar

/-- `toggleSection` (`Sidebar.js` lines 8-14): collapse the section if it
is the expanded one, otherwise expand it. -/
def toggleSection (expandedSection : Option String) (sec : String) :
    Option String :=
  if expandedSection = some sec then none else some sec

end Sidebar

namespace MessageItem

/-- `toggleSection` (`MessageItem.js` lines 8-14). -/
def toggleSection (expandedSection : Option String) (sec : String) :
    Option String :=
  if expandedSection = some sec then none else some sec

end MessageItem

/-! ### Theorems -/

/-- Claim C1: `advance(instance, targetState, evidence)` succeeds exactly
when `targetState` is the unique successor of `instance.state` in the
fixed linear ordering, or `targetState` is `FAILED` and `instance.state`
is non-terminal; every other call fails with `InvalidTransition`.  In
particular an instance in `FILE_DROPPED` cannot advance to `READY`, while
advancing it to `CLASSIFIED` succeeds with `history.length = 1`. -/
theorem advance_legal_iff :
    (∀ (inst : WorkflowInstance) (t : WorkflowState) (ev : Evidence),
      (advance inst t ev).isOk = true ↔
        (succOf inst.state = some t ∨
         (t = WorkflowState.FAILED ∧ isTerminalState inst.state = false))) ∧
    (∀ (inst : WorkflowInstance) (t : WorkflowState) (ev : Evidence),
      advance inst t ev = .error .InvalidTransition ↔
        ¬(succOf inst.state = some t ∨
          (t = WorkflowState.FAILED ∧ isTerminalState inst.state = false))) ∧
    (∀ ev : Evidence,
      advance (freshInstance 0) .READY ev = .error .InvalidTransition) ∧
    (∀ ev : Evidence, ∃ inst' : WorkflowInstance,
      advance (freshInstance 0) .CLASSIFIED ev = .ok inst' ∧
        inst'.history.length = 1) := by
  refine ⟨?_, ?_, ?_, ?_⟩
  · intro inst t ev
    unfold advance
    rcases hs : inst.state <;> rcases ht : t <;>
      simp [succOf, isTerminalState, Except.isOk, Except.toBool]
  · intro inst t ev
    unfold advance
    rcases hs : inst.state <;> rcases ht : t <;>
      simp [succOf, isTerminalState]
  · intro ev
    rfl
  · intro ev
    exact ⟨_, rfl, rfl⟩

/-- A successor step in the linear ordering moves one position forward in
`stateOrder`. -/
theorem succOf_stateOrder :
    ∀ (s t : WorkflowState) (k : Fin 8),
      succOf s = some t → stateOrder.get? k.val = some s →
      stateOrder.get? (k.val + 1) = some t ∧ k.val + 1 < 8 := by
  decide

/-- The chain invariant of reachable instances: the chain of successful
transition targets is an initial segment of the state ordering, and the
current state is its last element unless the instance has failed. -/
def ChainInv (inst : WorkflowInstance) : Prop :=
  ∃ k : Nat, k < 8 ∧ stateChain inst = stateOrder.take (k + 1) ∧
    (inst.state = WorkflowState.FAILED ∨ stateOrder.get? k = some inst.state)

/-- Every reachable instance satisfies the chain invariant. -/
theorem reachable_chainInv (inst : WorkflowInstance)
    (h : ReachableInstance inst) : ChainInv inst := by
  induction h with
  | init n =>
    exact ⟨0, by norm_num, rfl, Or.inr rfl⟩
  | step t ev hr hadv ih =>
    obtain ⟨k, hk, hchain, hstate⟩ := ih
    rename_i inst₀ inst₁
    unfold advance at hadv
    split at hadv
    · exact absurd hadv (by simp)
    · split at hadv
      · rename_i hterm hcond
        rw [Except.ok.injEq] at hadv
        subst hadv
        by_cases ht : t = WorkflowState.FAILED
        · refine ⟨k, hk, ?_, Or.inl ht⟩
          have : stateChain
              { inst₀ with
                  state := t,
                  history := inst₀.history ++
                    [⟨inst₀.state, t, ev.timestamp, ev.reason⟩] } =
              stateChain inst₀ := by
            simp [stateChain, successfulToStates, List.filter_append, ht]
          rw [this, hchain]
        · have hsucc : succOf inst₀.state = some t := by
            rcases hcond with h | h
            · exact h
            · exact absurd h ht
          have hns : inst₀.state ≠ WorkflowState.FAILED := by
            intro hf
            rw [hf] at hsucc
            simp [succOf] at hsucc
          have hget : stateOrder.get? k = some inst₀.state := by
            rcases hstate with h | h
            · exact absurd h hns
            · exact h
          obtain ⟨hget', hk'⟩ :=
            succOf_stateOrder inst₀.state t ⟨k, hk⟩ hsucc hget
          refine ⟨k + 1, hk', ?_, Or.inr hget'⟩
          have hch : stateChain
              { inst₀ with
                  state := t,
                  history := inst₀.history ++
                    [⟨inst₀.state, t, ev.timestamp, ev.reason⟩] } =
              stateChain inst₀ ++ [t] := by
            simp [stateChain, successfulToStates, List.filter_append, ht]
          rw [hch, hchain]
          simp only [Fin.val_mk] at hget'
          have := List.take_succ (l := stateOrder) (n := k + 1)
          rw [this, ← List.get?_eq_getElem?, hget']
          rfl
      · exact absurd hadv (by simp)

/-- Claim C2: each successful `advance` appends exactly one history record
(history is append-only, no record is removed or edited), and for every
reachable instance the history restricted to successful (non-`FAILED`)
transitions traverses an initial segment of the fixed state ordering: no
skipped states and no reversals. -/
theorem workflow_history_append_only_and_ordered :
    (∀ (inst : WorkflowInstance) (t : WorkflowState) (ev : Evidence)
        (inst' : WorkflowInstance), advance inst t ev = .ok inst' →
      inst'.history = inst.history ++
        [⟨inst.state, t, ev.timestamp, ev.reason⟩]) ∧
    (∀ inst : WorkflowInstance, ReachableInstance inst →
      ∃ rest : List WorkflowState, stateChain inst ++ rest = stateOrder) := by
  constructor
  · intro inst t ev inst' hadv
    unfold advance at hadv
    split at hadv
    · exact absurd hadv (by simp)
    · split at hadv
      · rw [Except.ok.injEq] at hadv
        rw [← hadv]
      · exact absurd hadv (by simp)
  · intro inst h
    obtain ⟨k, hk, hchain, _⟩ := reachable_chainInv inst h
    exact ⟨stateOrder.drop (k + 1), by rw [hchain, List.take_append_drop]⟩

/-- Concrete evidence value used by witnesses. -/
def ev0 : Evidence := ⟨0, "classified"⟩

/-- The instance obtained by advancing a fresh instance to `CLASSIFIED`. -/
def inst1 : WorkflowInstance :=
  ⟨0, .CLASSIFIED, [⟨.FILE_DROPPED, .CLASSIFIED, 0, "classified"⟩], []⟩

/-- Witness for claim C2 at a concrete reachable instance. -/
theorem workflow_history_append_only_and_ordered_witness :
    inst1.history = (freshInstance 0).history ++
      [⟨.FILE_DROPPED, .CLASSIFIED, 0, "classified"⟩] ∧
    ∃ rest : List WorkflowState, stateChain inst1 ++ rest = stateOrder :=
  ⟨workflow_history_append_only_and_ordered.1 (freshInstance 0) .CLASSIFIED
      ev0 inst1 rfl,
   workflow_history_append_only_and_ordered.2 inst1
      (ReachableInstance.step .CLASSIFIED ev0 (.init 0) rfl)⟩

/-- The content digest is injective on payloads. -/
theorem hashContent_injective :
    ∀ a b : List Nat, hashContent a = hashContent b → a = b := by
  intro a
  induction a with
  | nil =>
    intro b h
    cases b with
    | nil => rfl
    | cons y u => simp [hashContent] at h
  | cons x t ih =>
    intro b h
    cases b with
    | nil => simp [hashContent] at h
    | cons y u =>
      simp only [hashContent, Nat.add_right_cancel_iff] at h
      obtain ⟨h1, h2⟩ := Nat.pair_eq_pair.mp h
      rw [h1, ih u h2]

/-- Claim C3: `Registry.put` is idempotent: calling it twice with
identical content returns the same hash both times and does not create a
second stored copy; identical content always yields the same hash; and
`get` returns the stored content after a `put`, or fails with `NotFound`
when no content is stored under the hash. -/
theorem registry_put_idempotent_get :
    (∀ (r : Registry) (c : List Nat), ((r.put c).1.put c).2 = (r.put c).2) ∧
    (∀ (r : Registry) (c : List Nat), ((r.put c).1.put c).1 = (r.put c).1) ∧
    (∀ (r : Registry) (c₁ c₂ : List Nat), c₁ = c₂ →
      (r.put c₁).2 = (r.put c₂).2) ∧
    (∀ (r : Registry) (c : List Nat), r.WF →
      (r.put c).1.get (r.put c).2 = .ok c) ∧
    (∀ (r : Registry) (h : Nat), (∀ e ∈ r.entries, e.1 ≠ h) →
      r.get h = .error .NotFound) := by
  refine ⟨?_, ?_, ?_, ?_, ?_⟩
  · intro r c
    unfold Registry.put
    by_cases hin : r.entries.any (fun e => e.1 == hashContent c) <;>
      simp [hin, List.any_cons]
  · intro r c
    unfold Registry.put
    by_cases hin : r.entries.any (fun e => e.1 == hashContent c)
    · simp [hin]
    · simp only [Bool.not_eq_true] at hin
      simp [hin, List.any_cons]
  · intro r c₁ c₂ h
    rw [h]
  · intro r c hwf
    unfold Registry.put Registry.get
    by_cases hin : r.entries.any (fun e => e.1 == hashContent c)
    · simp only [hin, if_true]
      rw [List.any_eq_true] at hin
      obtain ⟨e, he, hpe⟩ := hin
      have hsome : (r.entries.find? (fun e => e.1 == hashContent c)).isSome :=
        List.find?_isSome.mpr ⟨e, he, hpe⟩
      obtain ⟨e', he'⟩ := Option.isSome_iff_exists.mp hsome
      rw [he']
      have hp : e'.1 = hashContent c := by
        have := List.find?_some he'
        simpa using this
      have hm : e' ∈ r.entries := List.mem_of_find?_eq_some he'
      have : e'.2 = c := hashContent_injective _ _ ((hwf e' hm ▸ hp))
      simp [this]
    · simp only [hin, if_false, Bool.false_eq_true]
      rw [List.find?_cons_of_pos]
      simp
  · intro r h hnone
    unfold Registry.get
    have : r.entries.find? (fun e => e.1 == h) = none := by
      rw [List.find?_eq_none]
      intro e he
      simpa using hnone e he
    rw [this]

/-- Witness for claim C3 at a concrete registry and payload. -/
theorem registry_put_idempotent_get_witness :
    ((Registry.mk []).put [1, 2]).1.get ((Registry.mk []).put [1, 2]).2 =
      .ok [1, 2] ∧
    (Registry.mk []).get 5 = .error .NotFound :=
  ⟨registry_put_idempotent_get.2.2.2.1 (Registry.mk []) [1, 2]
      (by intro e he; simp at he),
   registry_put_idempotent_get.2.2.2.2 (Registry.mk []) 5
      (by intro e he; simp at he)⟩

/-- Claim C8: a message whose trimmed form is empty causes
`handleSendMessage` to return immediately: no effect is issued (no change
to the messages list, no setting of the loading flag, no API call), so the
component state is unchanged. -/
theorem handleSendMessage_blank_noop :
    ∀ (st : App.AppState) (message : String) (api : App.ApiOutcome),
      App.jsTrim message = "" →
      App.handleSendMessage st message api = [] ∧
      App.applyEffects st (App.handleSendMessage st message api) = st := by
  intro st message api h
  have he : App.handleSendMessage st message api = [] := by
    unfold App.handleSendMessage
    simp [h]
  exact ⟨he, by rw [he]; rfl⟩

/-- A concrete initial component state for witnesses. -/
def st0 : App.AppState :=
  { messages := [], loading := false, fileData := none,
    dataDictPath := none, dbPath := "csv_database.db", dataDict := none,
    showSidebar := true }

/-- Witness for claim C8 at a whitespace-only message. -/
theorem handleSendMessage_blank_noop_witness :
    App.handleSendMessage st0 "  " (.thrown "boom") = [] ∧
    App.applyEffects st0 (App.handleSendMessage st0 "  " (.thrown "boom")) =
      st0 :=
  handleSendMessage_blank_noop st0 "  " (.thrown "boom") (by decide)

/-- Counterexample to claim C9: when the server-supplied
`error.response.data.error` field is present but an empty string (a falsy
value in JavaScript), the wrapper throws the fixed fallback message, not
the server-supplied (empty) one. -/
theorem api_error_message_counterexample :
    Api.processMessage (α := Unit) (.err (some "")) =
      .error "Failed to process message" ∧
    ("Failed to process message" : String) ≠ "" :=
  ⟨rfl, by decide⟩

/-- Claim C9 (amended): for every failing request, each API wrapper
throws an Error whose message is the server-supplied
`error.response.data.error` when that field is present and non-empty, and
otherwise the fixed per-operation fallback string; on failure no response
data is ever returned to the caller. -/
theorem api_error_messages :
    (∀ m : String, m ≠ "" →
      Api.processMessage (α := Unit) (.err (some m)) = .error m ∧
      Api.uploadFile (α := Unit) (.err (some m)) = .error m ∧
      Api.analyzeData (α := Unit) (.err (some m)) = .error m) ∧
    (∀ se : Option String, se = none ∨ se = some "" →
      Api.processMessage (α := Unit) (.err se) =
        .error "Failed to process message" ∧
      Api.uploadFile (α := Unit) (.err se) =
        .error "Failed to upload file" ∧
      Api.analyzeData (α := Unit) (.err se) =
        .error "Failed to analyze data") ∧
    (∀ se : Option String,
      (∃ m, Api.processMessage (α := Unit) (.err se) = .error m) ∧
      (∃ m, Api.uploadFile (α := Unit) (.err se) = .error m) ∧
      (∃ m, Api.analyzeData (α := Unit) (.err se) = .error m)) := by
  refine ⟨?_, ?_, ?_⟩
  · intro m hm
    refine ⟨?_, ?_, ?_⟩ <;>
      simp [Api.processMessage, Api.uploadFile, Api.analyzeData,
            Api.errMessageOr, hm]
  · intro se hse
    rcases hse with h | h <;> subst h <;>
      exact ⟨rfl, rfl, rfl⟩
  · intro se
    exact ⟨⟨_, rfl⟩, ⟨_, rfl⟩, ⟨_, rfl⟩⟩

/-- Witness for claim C9 at concrete failing requests. -/
theorem api_error_messages_witness :
    Api.processMessage (α := Unit) (.err (some "bad query")) =
      .error "bad query" ∧
    Api.uploadFile (α := Unit) (.err none) =
      .error "Failed to upload file" :=
  ⟨(api_error_messages.1 "bad query" (by decide)).1,
   (api_error_messages.2.1 none (Or.inl rfl)).2.1⟩

/-- Claim C10: in both `Sidebar` and `MessageItem`, `toggleSection`
collapses the expanded section when toggled again and expands the chosen
section otherwise; toggling twice from a state where the section is not
expanded ends in the collapsed state; at most one section is expanded at
any time; and the two components use the same toggling function. -/
theorem toggleSection_behavior :
    (∀ (e : Option String) (s : String), e = some s →
      Sidebar.toggleSection e s = none ∧
      MessageItem.toggleSection e s = none) ∧
    (∀ (e : Option String) (s : String), e ≠ some s →
      Sidebar.toggleSection e s = some s ∧
      MessageItem.toggleSection e s = some s) ∧
    (∀ (e : Option String) (s : String), e ≠ some s →
      Sidebar.toggleSection (Sidebar.toggleSection e s) s = none ∧
      MessageItem.toggleSection (MessageItem.toggleSection e s) s = none) ∧
    (∀ (e : Option String) (s : String),
      MessageItem.toggleSection e s = Sidebar.toggleSection e s) ∧
    (∀ (e : Option String) (s₁ s₂ : String),
      e = some s₁ → e = some s₂ → s₁ = s₂) := by
  refine ⟨?_, ?_, ?_, ?_, ?_⟩
  · intro e s h
    constructor <;> simp [Sidebar.toggleSection, MessageItem.toggleSection, h]
  · intro e s h
    constructor <;> simp [Sidebar.toggleSection, MessageItem.toggleSection, h]
  · intro e s h
    constructor <;> simp [Sidebar.toggleSection, MessageItem.toggleSection, h]
  · intro e s
    rfl
  · intro e s₁ s₂ h₁ h₂
    rw [h₁] at h₂
    exact (Option.some.injEq _ _ ▸ h₂)

/-- Witness for claim C10 at concrete section names. -/
theorem toggleSection_behavior_witness :
    Sidebar.toggleSection none "help" = some "help" ∧
    MessageItem.toggleSection none "help" = some "help" :=
  toggleSection_behavior.2.1 none "help" (by decide)

/-! ### Scheduler trace soundness -/

/-- A settled status never changes when the trace is extended. -/
theorem statusOf_append (tr u : List Event) (i : Nat)
    (h : statusOf tr i ≠ .pending) : statusOf (tr ++ u) i = statusOf tr i := by
  unfold statusOf
  cases hf : tr.find? (fun e => e.targetId == i) with
  | none =>
    unfold statusOf at h
    rw [hf] at h
    exact absurd rfl h
  | some e =>
    rw [List.find?_append, hf]
    rfl

/-- A terminal status is not pending. -/
theorem ne_pending_of_terminal {st : StepStatus}
    (h : isTerminalStatus st = true) : st ≠ .pending := by
  cases st <;> simp_all [isTerminalStatus]

/-- Terminal dependencies stay terminal when the trace is extended. -/
theorem depsTerminalB_append (tr u : List Event) (s : Step)
    (h : depsTerminalB tr s = true) : depsTerminalB (tr ++ u) s = true := by
  rw [depsTerminalB, List.all_eq_true] at h ⊢
  intro d hd
  rw [statusOf_append tr u d (ne_pending_of_terminal (h d hd))]
  exact h d hd

/-- Succeeded dependencies stay succeeded when the trace is extended. -/
theorem depsSucceededB_append (tr u : List Event) (s : Step)
    (h : depsSucceededB tr s = true) : depsSucceededB (tr ++ u) s = true := by
  rw [depsSucceededB, List.all_eq_true] at h ⊢
  intro d hd
  have hs := h d hd
  rw [beq_iff_eq] at hs
  rw [beq_iff_eq, statusOf_append tr u d (by rw [hs]; simp), hs]

/-- Soundness of a trace: every dispatched event was dispatched from the
ready frontier: all dependencies terminal at dispatch time, and all
dependencies succeeded unless the step is tolerant. -/
def DispatchSound (plan : Plan) (o : Nat → Outcome) (tr : List Event) : Prop :=
  ∀ (i : Nat) (h : i < tr.length) (sid : Nat) (out : Outcome),
    tr.get ⟨i, h⟩ = Event.dispatched sid out →
    ∃ s ∈ plan.steps, s.id = sid ∧ out = o sid ∧
      depsTerminalB (tr.take i) s = true ∧
      (s.tolerant = false → depsSucceededB (tr.take i) s = true)

/-- Every skip event is a `skipped` event. -/
theorem skipEvents_shape (plan : Plan) (tr : List Event) :
    ∀ e ∈ skipEvents plan tr, ∃ sid, e = Event.skipped sid := by
  intro e he
  unfold skipEvents at he
  obtain ⟨s, _, hse⟩ := List.mem_map.mp he
  exact ⟨s.id, hse.symm⟩

/-- Every dispatch event comes from a ready step of the plan. -/
theorem dispatchEvents_shape (plan : Plan) (o : Nat → Outcome)
    (base : List Event) :
    ∀ e ∈ dispatchEvents plan o base, ∃ s ∈ plan.steps,
      readyB base s = true ∧ e = Event.dispatched s.id (o s.id) := by
  intro e he
  unfold dispatchEvents at he
  obtain ⟨s, hs, hse⟩ := List.mem_map.mp he
  obtain ⟨hsteps, hready⟩ := List.mem_filter.mp hs
  exact ⟨s, hsteps, hready, hse.symm⟩

/-- One scheduling round preserves trace soundness. -/
theorem roundEvents_sound (plan : Plan) (o : Nat → Outcome) (tr : List Event)
    (h : DispatchSound plan o tr) :
    DispatchSound plan o (tr ++ roundEvents plan o tr) := by
  intro i hi sid out hget
  simp only [List.get_eq_getElem] at hget
  by_cases hlt : i < tr.length
  · have hget' : tr.get ⟨i, hlt⟩ = .dispatched sid out := by
      rw [← hget]
      simp only [List.get_eq_getElem]
      exact (List.getElem_append_left hlt).symm
    obtain ⟨s, hs, h1, h2, h3, h4⟩ := h i hlt sid out hget'
    rw [List.take_append_of_le_length (le_of_lt hlt)]
    exact ⟨s, hs, h1, h2, h3, h4⟩
  · push_neg at hlt
    have hiE : i - tr.length < (roundEvents plan o tr).length := by
      have := hi
      rw [List.length_append] at this
      omega
    have hgetE : (roundEvents plan o tr)[i - tr.length] =
        Event.dispatched sid out := by
      rw [← hget]
      exact (List.getElem_append_right hlt).symm
    have hmemE : Event.dispatched sid out ∈ roundEvents plan o tr := by
      rw [← hgetE]
      exact List.getElem_mem hiE
    unfold roundEvents at hgetE hiE hmemE
    by_cases hjs : i - tr.length < (skipEvents plan tr).length
    · exfalso
      have hsk : (skipEvents plan tr ++
          dispatchEvents plan o (tr ++ skipEvents plan tr))[i - tr.length] =
          (skipEvents plan tr)[i - tr.length] :=
        List.getElem_append_left hjs
      rw [hsk] at hgetE
      have hm : (skipEvents plan tr)[i - tr.length] ∈ skipEvents plan tr :=
        List.getElem_mem hjs
      rw [hgetE] at hm
      obtain ⟨sid', hsid'⟩ := skipEvents_shape plan tr _ hm
      exact Event.noConfusion hsid'
    · push_neg at hjs
      have hkb : i - tr.length - (skipEvents plan tr).length <
          (dispatchEvents plan o (tr ++ skipEvents plan tr)).length := by
        have := hiE
        rw [List.length_append] at this
        omega
      have hdp : (skipEvents plan tr ++
          dispatchEvents plan o (tr ++ skipEvents plan tr))[i - tr.length] =
          (dispatchEvents plan o (tr ++ skipEvents plan tr))[
            i - tr.length - (skipEvents plan tr).length] :=
        List.getElem_append_right hjs
      rw [hdp] at hgetE
      have hm : Event.dispatched sid out ∈
          dispatchEvents plan o (tr ++ skipEvents plan tr) := by
        rw [← hgetE]
        exact List.getElem_mem hkb
      obtain ⟨s, hsteps, hready, hse⟩ := dispatchEvents_shape plan o _ _ hm
      obtain ⟨hid, hout⟩ := Event.dispatched.inj hse
      rw [readyB, Bool.and_eq_true, Bool.and_eq_true] at hready
      obtain ⟨⟨_, hterm⟩, hsucc⟩ := hready
      have hbase : (tr ++ (skipEvents plan tr ++
          dispatchEvents plan o (tr ++ skipEvents plan tr))).take i =
          (tr ++ skipEvents plan tr) ++
            (dispatchEvents plan o (tr ++ skipEvents plan tr)).take
              (i - (tr ++ skipEvents plan tr).length) := by
        rw [← List.append_assoc, List.take_append_eq_append_take,
            List.take_of_length_le]
        rw [List.length_append]
        omega
      refine ⟨s, hsteps, hid.symm, by rw [hid]; exact hout, ?_, ?_⟩
      · rw [roundEvents, hbase]
        exact depsTerminalB_append _ _ _ hterm
      · intro htol
        rw [roundEvents, hbase]
        rcases (Bool.or_eq_true _ _).mp hsucc with hsu | hto
        · exact depsSucceededB_append _ _ _ hsu
        · rw [htol] at hto
          exact absurd hto (by simp)

/-- The Scheduler loop preserves trace soundness. -/
theorem runAux_sound (plan : Plan) (o : Nat → Outcome) :
    ∀ (n : Nat) (tr : List Event), DispatchSound plan o tr →
      DispatchSound plan o (runAux plan o n tr) := by
  intro n
  induction n with
  | zero => intro tr h; exact h
  | succ m ih =>
    intro tr h
    rw [runAux]
    by_cases he : (roundEvents plan o tr).isEmpty
    · simp only [he, if_true]
      exact h
    · simp only [he, Bool.false_eq_true, if_false]
      exact ih _ (roundEvents_sound plan o tr h)

/-- The full Scheduler trace is sound. -/
theorem run_sound (plan : Plan) (o : Nat → Outcome) :
    DispatchSound plan o (run plan o) := by
  apply runAux_sound
  intro i h
  simp at h

/-- Claim C4: for every Plan and every step `s`, `s` is never dispatched
before every step in `s.dependsOn` has reached a terminal status
(`succeeded`, `failed`, or `skipped`): at every position of the execution
trace where a step is dispatched, all of its dependencies are terminal in
the trace so far. -/
theorem scheduler_no_premature_dispatch :
    ∀ (plan : Plan) (o : Nat → Outcome), (planIds plan).Nodup →
    ∀ (i : Nat) (h : i < (run plan o).length) (sid : Nat) (out : Outcome),
      (run plan o).get ⟨i, h⟩ = Event.dispatched sid out →
    ∀ s ∈ plan.steps, s.id = sid →
    ∀ d ∈ s.dependsOn,
      isTerminalStatus (statusOf ((run plan o).take i) d) = true := by
  intro plan o hnd i h sid out hget s hs hsid d hd
  obtain ⟨s', hs', hid', _, hterm, _⟩ := run_sound plan o i h sid out hget
  have hss : s = s' := by
    have hnd' : (plan.steps.map (·.id)).Nodup := by
      simpa [planIds] using hnd
    exact List.inj_on_of_nodup_map hnd' hs hs' (by rw [hsid, hid'])
  rw [depsTerminalB, List.all_eq_true] at hterm
  exact hterm d (hss ▸ hd)

/-- A two-step chain plan used by witnesses. -/
def chainPlan : Plan := ⟨[⟨1, [], false⟩, ⟨2, [1], false⟩]⟩

/-- The all-success outcome assignment. -/
def allSuccess : Nat → Outcome := fun _ => .success

/-- Witness for claim C4: in the chain plan, when step 2 is dispatched its
dependency 1 is already terminal. -/
theorem scheduler_no_premature_dispatch_witness :
    isTerminalStatus (statusOf ((run chainPlan allSuccess).take 1) 1) =
      true :=
  scheduler_no_premature_dispatch chainPlan allSuccess (by decide)
    1 (by decide) 2 .success (by decide)
    ⟨2, [1], false⟩ (by decide) rfl 1 (by decide)

/-- The dispatch events of one round are issued in plan insertion order. -/
theorem dispatchEvents_congr (plan : Plan) (o₁ o₂ : Nat → Outcome)
    (ho : ∀ s ∈ plan.steps, o₁ s.id = o₂ s.id) (base : List Event) :
    dispatchEvents plan o₁ base = dispatchEvents plan o₂ base := by
  unfold dispatchEvents
  apply List.map_congr_left
  intro s hs
  rw [ho s (List.mem_of_mem_filter hs)]

/-- A round depends on the outcomes only through the plan's own steps. -/
theorem roundEvents_congr (plan : Plan) (o₁ o₂ : Nat → Outcome)
    (ho : ∀ s ∈ plan.steps, o₁ s.id = o₂ s.id) (tr : List Event) :
    roundEvents plan o₁ tr = roundEvents plan o₂ tr := by
  unfold roundEvents
  rw [dispatchEvents_congr plan o₁ o₂ ho]

/-- The Scheduler loop depends on the outcomes only through the plan's own
steps. -/
theorem runAux_congr (plan : Plan) (o₁ o₂ : Nat → Outcome)
    (ho : ∀ s ∈ plan.steps, o₁ s.id = o₂ s.id) :
    ∀ (n : Nat) (tr : List Event),
      runAux plan o₁ n tr = runAux plan o₂ n tr := by
  intro n
  induction n with
  | zero => intro tr; rfl
  | succ m ih =>
    intro tr
    rw [runAux, runAux, roundEvents_congr plan o₁ o₂ ho]
    by_cases he : (roundEvents plan o₂ tr).isEmpty
    · simp only [he, if_true]
    · simp only [he, Bool.false_eq_true, if_false]
      exact ih _

/-- Claim C5: the Scheduler is deterministic: two runs over an identical
Plan graph in which each step has identical outcomes produce the same
event trace (hence the same dispatch sequence); and ties among equally
ready steps are broken by stable FIFO on step insertion order: each
round's dispatched ids form a subsequence of the plan's step id order. -/
theorem scheduler_deterministic_fifo :
    (∀ (plan : Plan) (o₁ o₂ : Nat → Outcome),
      (∀ s ∈ plan.steps, o₁ s.id = o₂ s.id) →
      run plan o₁ = run plan o₂) ∧
    (∀ (plan : Plan) (o : Nat → Outcome) (tr : List Event),
      (dispIds (roundEvents plan o tr)).Sublist (planIds plan)) := by
  constructor
  · intro plan o₁ o₂ ho
    unfold run
    exact runAux_congr plan o₁ o₂ ho _ _
  · intro plan o tr
    have h1 : dispIds (roundEvents plan o tr) =
        dispIds (dispatchEvents plan o (tr ++ skipEvents plan tr)) := by
      unfold roundEvents dispIds
      rw [List.filterMap_append]
      have : List.filterMap
          (fun e => match e with
            | Event.dispatched i _ => some i
            | Event.skipped _ => none) (skipEvents plan tr) = [] := by
        unfold skipEvents
        rw [List.filterMap_map]
        simp [Function.comp]
      rw [this, List.nil_append]
    rw [h1]
    have hgen : ∀ l : List Step, List.filterMap
        (fun e => match e with
          | Event.dispatched i _ => some i
          | Event.skipped _ => none)
        (l.map (fun s => Event.dispatched s.id (o s.id))) = l.map (·.id) := by
      intro l
      induction l with
      | nil => rfl
      | cons x t ih => simp [List.filterMap_cons, ih]
    have h2 : dispIds (dispatchEvents plan o (tr ++ skipEvents plan tr)) =
        (plan.steps.filter (readyB (tr ++ skipEvents plan tr))).map (·.id) := by
      unfold dispatchEvents dispIds
      exact hgen _
    rw [h2]
    exact List.Sublist.map _ (List.filter_sublist _)

/-- Witness for claim C5 at a concrete plan and two outcome assignments
that agree on the plan's steps. -/
theorem scheduler_deterministic_fifo_witness :
    run chainPlan allSuccess =
      run chainPlan (fun i => if i ≤ 10 then .success else .failure) :=
  scheduler_deterministic_fifo.1 chainPlan allSuccess
    (fun i => if i ≤ 10 then .success else .failure) (by decide)

/-- A step whose status is `succeeded` or `failed` has a dispatch event in
the trace. -/
theorem exists_dispatch_of_final (tr : List Event) (i : Nat)
    (h : statusOf tr i = .succeeded ∨ statusOf tr i = .failed) :
    ∃ (j : Nat) (hj : j < tr.length) (out : Outcome),
      tr.get ⟨j, hj⟩ = Event.dispatched i out := by
  unfold statusOf at h
  cases hf : tr.find? (fun e => e.targetId == i) with
  | none =>
    rw [hf] at h
    rcases h with h | h <;> exact StepStatus.noConfusion h
  | some e =>
    rw [hf] at h
    have hp := List.find?_some hf
    have hmem := List.mem_of_find?_eq_some hf
    obtain ⟨n, hn⟩ := List.get_of_mem hmem
    cases e with
    | dispatched i' out =>
      have hii : i' = i := by simpa [Event.targetId] using hp
      subst hii
      exact ⟨n.val, n.isLt, out, by rw [← hn]⟩
    | skipped i' =>
      rcases h with h | h <;>
        exact absurd h (by simp [eventStatus])

/-- A status settled in a prefix of the trace is the final status. -/
theorem statusOf_take_full (tr : List Event) (j : Nat) (i : Nat)
    (h : statusOf (tr.take j) i ≠ .pending) :
    statusOf tr i = statusOf (tr.take j) i := by
  conv_lhs => rw [← List.take_append_drop j tr]
  exact statusOf_append _ _ i h

/-- The A/B/C scenario plan: A and B independent, C depends on both. -/
def abcPlan : Plan := ⟨[⟨1, [], false⟩, ⟨2, [], false⟩, ⟨3, [1, 2], false⟩]⟩

/-- The A/B/C scenario outcomes: A succeeds, B fails non-retryably. -/
def abcOutcome : Nat → Outcome := fun i => if i = 2 then .failure else .success

/-- Claim C6: for every completed Plan, the aggregate status is
`succeeded` iff every step is `succeeded` or tolerant-`skipped`, and
`failed` otherwise; a step whose dependency failed (or was skipped) ends
`skipped` unless marked tolerant; and in the A/B/C scenario (A succeeds, B
fails) C ends `skipped` and the Plan status is `failed`. -/
theorem plan_aggregate_skip_propagation :
    (∀ (plan : Plan) (st : Nat → StepStatus),
      planAggregate plan st = .succeeded ↔
        ∀ s ∈ plan.steps, st s.id = .succeeded ∨
          (st s.id = .skipped ∧ s.tolerant = true)) ∧
    (∀ (plan : Plan) (o : Nat → Outcome), (planIds plan).Nodup →
      (∀ s ∈ plan.steps, isTerminalStatus (finalStatus plan o s.id) = true) →
      ∀ s ∈ plan.steps, s.tolerant = false →
      ∀ d ∈ s.dependsOn,
        (finalStatus plan o d = .failed ∨ finalStatus plan o d = .skipped) →
        finalStatus plan o s.id = .skipped) ∧
    (run abcPlan abcOutcome =
        [.dispatched 1 .success, .dispatched 2 .failure, .skipped 3] ∧
      finalStatus abcPlan abcOutcome 3 = .skipped ∧
      planAggregate abcPlan (finalStatus abcPlan abcOutcome) = .failed) := by
  refine ⟨?_, ?_, by decide, by decide, by decide⟩
  · intro plan st
    have hh : planAggregate plan st = .succeeded ↔
        plan.steps.all (fun s =>
          st s.id == .succeeded || (st s.id == .skipped && s.tolerant)) =
          true := by
      unfold planAggregate
      split <;> simp_all
    rw [hh, List.all_eq_true]
    simp only [Bool.or_eq_true, Bool.and_eq_true, beq_iff_eq]
  · intro plan o hnd hcompl s hs htol d hd hdstat
    have hterm := hcompl s hs
    cases hfs : finalStatus plan o s.id with
    | pending => rw [hfs] at hterm; exact absurd hterm (by simp [isTerminalStatus])
    | running => rw [hfs] at hterm; exact absurd hterm (by simp [isTerminalStatus])
    | skipped => rfl
    | succeeded =>
      exfalso
      obtain ⟨j, hj, out, hget⟩ :=
        exists_dispatch_of_final (run plan o) s.id (Or.inl hfs)
      obtain ⟨s', hs', hid', _, _, hsucc⟩ := run_sound plan o j hj s.id out hget
      have hss : s = s' := by
        have hnd' : (plan.steps.map (·.id)).Nodup := by
          simpa [planIds] using hnd
        exact List.inj_on_of_nodup_map hnd' hs hs' hid'.symm
      have hdall := hsucc (hss ▸ htol)
      rw [depsSucceededB, List.all_eq_true] at hdall
      have hds := hdall d (hss ▸ hd)
      rw [beq_iff_eq] at hds
      have : finalStatus plan o d = .succeeded := by
        unfold finalStatus
        rw [statusOf_take_full (run plan o) j d (by rw [hds]; simp), hds]
      rcases hdstat with h | h <;> rw [this] at h <;>
        exact StepStatus.noConfusion h
    | failed =>
      exfalso
      obtain ⟨j, hj, out, hget⟩ :=
        exists_dispatch_of_final (run plan o) s.id (Or.inr hfs)
      obtain ⟨s', hs', hid', _, _, hsucc⟩ := run_sound plan o j hj s.id out hget
      have hss : s = s' := by
        have hnd' : (plan.steps.map (·.id)).Nodup := by
          simpa [planIds] using hnd
        exact List.inj_on_of_nodup_map hnd' hs hs' hid'.symm
      have hdall := hsucc (hss ▸ htol)
      rw [depsSucceededB, List.all_eq_true] at hdall
      have hds := hdall d (hss ▸ hd)
      rw [beq_iff_eq] at hds
      have : finalStatus plan o d = .succeeded := by
        unfold finalStatus
        rw [statusOf_take_full (run plan o) j d (by rw [hds]; simp), hds]
      rcases hdstat with h | h <;> rw [this] at h <;>
        exact StepStatus.noConfusion h

/-- Witness for claim C6: in the A/B/C scenario, step C (id 3) ends
skipped because its dependency B (id 2) failed. -/
theorem plan_aggregate_skip_propagation_witness :
    finalStatus abcPlan abcOutcome 3 = .skipped :=
  plan_aggregate_skip_propagation.2.1 abcPlan abcOutcome (by decide)
    (by decide) ⟨3, [1, 2], false⟩ (by decide) rfl 2 (by decide)
    (Or.inl (by decide))

/-- A dependency-respecting elimination order: every listed id has its
dependencies listed strictly earlier. -/
def GoodOrder (plan : Plan) (done : List Nat) : Prop :=
  ∀ i ∈ done, ∀ d ∈ depsOf plan i,
    d ∈ done ∧ done.indexOf d < done.indexOf i

/-- One elimination round preserves the ordering invariant. -/
theorem goodOrder_elim (plan : Plan) (done : List Nat)
    (h : GoodOrder plan done) :
    GoodOrder plan (done ++ elimRound plan done) := by
  intro i hi d hd
  rcases List.mem_append.mp hi with hid | hin
  · obtain ⟨hdm, hlt⟩ := h i hid d hd
    refine ⟨List.mem_append.mpr (Or.inl hdm), ?_⟩
    rw [List.indexOf_append_of_mem hdm, List.indexOf_append_of_mem hid]
    exact hlt
  · obtain ⟨hiu, hcond⟩ := List.mem_filter.mp hin
    rw [Bool.and_eq_true] at hcond
    obtain ⟨hni, hall⟩ := hcond
    have hdm : d ∈ done := by
      rw [List.all_eq_true] at hall
      simpa using hall d hd
    have hnid : i ∉ done := by simpa using hni
    refine ⟨List.mem_append.mpr (Or.inl hdm), ?_⟩
    rw [List.indexOf_append_of_mem hdm, List.indexOf_append_of_not_mem hnid]
    have h1 : done.indexOf d < done.length := List.indexOf_lt_length.mpr hdm
    omega

/-- The elimination loop preserves the ordering invariant. -/
theorem kahnAux_good (plan : Plan) :
    ∀ (n : Nat) (done : List Nat), GoodOrder plan done →
      GoodOrder plan (kahnAux plan n done) := by
  intro n
  induction n with
  | zero => intro done h; exact h
  | succ m ih =>
    intro done h
    rw [kahnAux]
    by_cases he : (elimRound plan done).isEmpty
    · simp only [he, if_true]
      exact h
    · simp only [he, Bool.false_eq_true, if_false]
      exact ih _ (goodOrder_elim plan done h)

/-- The computed elimination order respects dependencies. -/
theorem kahnOrder_good (plan : Plan) : GoodOrder plan (kahnOrder plan) := by
  apply kahnAux_good
  intro i hi
  exact absurd hi (by simp)

/-- An id with a declared dependency is one of the plan's ids. -/
theorem mem_uids_of_depsOf (plan : Plan) (i d : Nat)
    (hd : d ∈ depsOf plan i) : i ∈ uids plan := by
  unfold depsOf at hd
  obtain ⟨s, hsf, _⟩ := List.mem_flatMap.mp hd
  obtain ⟨hs, hsi⟩ := List.mem_filter.mp hsf
  rw [beq_iff_eq] at hsi
  rw [uids, List.mem_dedup, planIds, List.mem_map]
  exact ⟨s, hs, hsi⟩

/-- When the acyclicity check passes, a transitive dependency sits
strictly earlier in the elimination order. -/
theorem reaches_rank (plan : Plan) (hacy : acyclicB plan = true) :
    ∀ i j : Nat, ReachesPlus plan i j →
      j ∈ kahnOrder plan ∧ i ∈ kahnOrder plan ∧
        (kahnOrder plan).indexOf j < (kahnOrder plan).indexOf i := by
  have hmem : ∀ i : Nat, i ∈ uids plan → i ∈ kahnOrder plan := by
    intro i hi
    rw [acyclicB, List.all_eq_true] at hacy
    simpa using hacy i hi
  intro i j hr
  induction hr with
  | single hd =>
    rename_i i' d
    have hik : i' ∈ kahnOrder plan := hmem i' (mem_uids_of_depsOf plan i' d hd)
    obtain ⟨hdm, hlt⟩ := kahnOrder_good plan i' hik d hd
    exact ⟨hdm, hik, hlt⟩
  | tail hd hr ih =>
    rename_i i' d j'
    have hik : i' ∈ kahnOrder plan := hmem i' (mem_uids_of_depsOf plan i' d hd)
    obtain ⟨_, hlt⟩ := kahnOrder_good plan i' hik d hd
    exact ⟨ih.1, hik, lt_trans ih.2.2 hlt⟩

/-- A cyclic plan fails the acyclicity check. -/
theorem hasCycle_acyclicB_false (plan : Plan) (h : HasCycle plan) :
    acyclicB plan = false := by
  by_contra hb
  rw [Bool.not_eq_false] at hb
  obtain ⟨i, hi⟩ := h
  obtain ⟨_, _, hlt⟩ := reaches_rank plan hb i i hi
  exact lt_irrefl _ hlt

/-- A plan with a dangling dependency reference fails the reference
check. -/
theorem hasBadRef_refsOkB_false (plan : Plan) (h : HasBadRef plan) :
    refsOkB plan = false := by
  obtain ⟨s, hs, d, hd, hnd⟩ := h
  by_contra hb
  rw [Bool.not_eq_false, refsOkB, List.all_eq_true] at hb
  have hb' := hb s hs
  rw [List.all_eq_true] at hb'
  exact hnd (by simpa using hb' d hd)

/-- Claim C7: a Planner graph containing a cycle or a `dependsOn`
reference to a nonexistent step id is rejected with `InvalidPlan`: the
owning Goal fails immediately and no step of the plan is ever dispatched
(the trace is empty). -/
theorem invalid_plan_rejected :
    ∀ (plan : Plan) (o : Nat → Outcome), HasCycle plan ∨ HasBadRef plan →
      executeGoal plan o =
        { status := .failed, error := some .InvalidPlan, trace := [] } := by
  intro plan o h
  have hv : validatePlanB plan = false := by
    unfold validatePlanB
    rcases h with h | h
    · rw [hasCycle_acyclicB_false plan h]
      simp
    · rw [hasBadRef_refsOkB_false plan h]
      simp
  unfold executeGoal
  simp [hv]

/-- A self-dependent single-step plan. -/
def loopPlan : Plan := ⟨[⟨1, [1], false⟩]⟩

/-- Witness for claim C7 at a concrete cyclic plan. -/
theorem invalid_plan_rejected_witness :
    executeGoal loopPlan allSuccess =
      { status := .failed, error := some .InvalidPlan, trace := [] } :=
  invalid_plan_rejected loopPlan allSuccess
    (Or.inl ⟨1, ReachesPlus.single (by decide)⟩)

end Nl2v2
